import Mathlib

/-!
# Verification of the in-memory document store (`src/backend/database.py`)

A shallow embedding of the `InMemoryCollection` class: Python values become the
inductive type `Value`, Python dicts become ordered association lists, and the
runtime errors Python can raise (`TypeError`, `KeyError`, `AttributeError`)
become explicit `Except` results.  All definitions are executable and mirror
the source line by line; the theorems below settle the frozen claims about the
store's query/update semantics.
-/

/-- The Python runtime errors the store's code can raise. -/
inductive PyErr where
  | typeError
  | keyError
  | attributeError
deriving DecidableEq

/-- A Python value as it occurs in the store's documents and queries:
strings, integers, booleans, `None`, lists, and (nested) dicts.
Dicts are modelled as insertion-ordered association lists, matching the
ordering guarantee of Python 3.7+ dicts. -/
inductive Value where
  | str (s : String)
  | int (n : Int)
  | bool (b : Bool)
  | none
  | list (elems : List Value)
  | dict (fields : List (String × Value))

/-- A document: a Python dict with string keys (`Dict[str, Any]`). -/
abbrev Doc := List (String × Value)

/-- A query descriptor (`query: Dict`). -/
abbrev Query := List (String × Value)

/-- An update descriptor (`update: Dict`). -/
abbrev Update := List (String × Value)

/-- `d.get(k)` / `k in d` for a Python dict with string keys: the value at the
first (and in a real dict, only) occurrence of the key. -/
def getField : List (String × Value) → String → Option Value
  | [], _ => Option.none
  | (k0, v0) :: rest, k => if k0 = k then some v0 else getField rest k

/-- `k in d` for a Python dict with string keys. -/
def hasField (d : List (String × Value)) (k : String) : Bool :=
  (getField d k).isSome

/-- `d[k] = v` for a Python dict with string keys: overwrite the value at an
existing key in place (the dict keeps the key's original position), else
append the new binding at the end. -/
def setField : Doc → String → Value → Doc
  | [], k, v => [(k, v)]
  | (k0, v0) :: rest, k, v =>
    if k0 = k then (k0, v) :: rest else (k0, v0) :: setField rest k v

mutual
/-- Python `==` on the modelled values: numeric cross-type equality between
`bool` and `int` (Python's `True == 1`), structural equality on lists, and
order-insensitive equality on dicts.  Cross-type comparisons otherwise yield
`False`, never an error. -/
def Value.eq : Value → Value → Bool
  | .str s, .str t => decide (s = t)
  | .int m, .int n => decide (m = n)
  | .bool a, .bool b => decide (a = b)
  | .bool a, .int n => decide ((if a then (1 : Int) else 0) = n)
  | .int m, .bool b => decide (m = (if b then (1 : Int) else 0))
  | .none, .none => true
  | .list xs, .list ys => Value.eqList xs ys
  | .dict d, .dict e =>
    Value.eqFields d e && e.all (fun p => d.any (fun q => decide (q.1 = p.1)))
  | _, _ => false

/-- Elementwise Python `==` on two lists. -/
def Value.eqList : List Value → List Value → Bool
  | [], [] => true
  | x :: xs, y :: ys => Value.eq x y && Value.eqList xs ys
  | _, _ => false

/-- One inclusion of Python dict equality: every binding of the first dict is
matched by an equal value at the same key in the second. -/
def Value.eqFields : List (String × Value) → List (String × Value) → Bool
  | [], _ => true
  | (k, v) :: rest, e =>
    (match getField e k with
     | some w => Value.eq v w
     | Option.none => false) && Value.eqFields rest e
end

/-- Whether a value is hashable in Python (usable as a dict key):
strings, integers, booleans and `None` are; lists and dicts are not. -/
def Value.hashable : Value → Bool
  | .str _ => true
  | .int _ => true
  | .bool _ => true
  | .none => true
  | .list _ => false
  | .dict _ => false

/-- Lexicographic comparison of two strings as sequences of code points,
exactly Python's string `<`. -/
def strLtChars : List Char → List Char → Bool
  | [], [] => false
  | [], _ :: _ => true
  | _ :: _, [] => false
  | c :: cs, d :: ds =>
    if c = d then strLtChars cs ds else decide (c.toNat < d.toNat)

mutual
/-- Python `<` on the modelled values: `Option.none` where Python raises
`TypeError` (comparison between incompatible types), `some c` where the
comparison is defined.  Strings compare lexicographically by code point,
`bool` and `int` compare numerically, lists compare lexicographically
elementwise. -/
def Value.lt : Value → Value → Option Bool
  | .str s, .str t => some (strLtChars s.data t.data)
  | .int m, .int n => some (decide (m < n))
  | .bool a, .int n => some (decide ((if a then (1 : Int) else 0) < n))
  | .int m, .bool b => some (decide (m < (if b then (1 : Int) else 0)))
  | .bool a, .bool b =>
    some (decide ((if a then (1 : Int) else 0) < (if b then (1 : Int) else 0)))
  | .list xs, .list ys => Value.ltList xs ys
  | _, _ => Option.none

/-- Python `<` on two lists: skip `==`-equal leading elements, then compare
the first differing pair with `<`; a strict leading sublist is smaller. -/
def Value.ltList : List Value → List Value → Option Bool
  | [], [] => some false
  | [], _ :: _ => some true
  | _ :: _, [] => some false
  | x :: xs, y :: ys => if Value.eq x y then Value.ltList xs ys else Value.lt x y
end

/-- `key.startswith("$")`: whether the string's first character is `'$'`. -/
def startsWithDollar (k : String) : Bool :=
  match k.data with
  | [] => false
  | c :: _ => decide (c = '$')

/-- Whether the character list `pat` occurs as a leading segment of `hay`. -/
def leadEq : List Char → List Char → Bool
  | [], _ => true
  | _ :: _, [] => false
  | c :: cs, d :: ds => decide (c = d) && leadEq cs ds

/-- Whether the character list `pat` occurs contiguously inside `hay`
(Python substring containment). -/
def hasSub (pat : List Char) : List Char → Bool
  | [] => pat.isEmpty
  | c :: rest => leadEq pat (c :: rest) || hasSub pat rest

/-- Python `x in container`: membership via `==` for lists, substring test
for strings, key membership for dicts (raising `TypeError` on an unhashable
probe), `TypeError` for non-container values. -/
def pyContains (container x : Value) : Except PyErr Bool :=
  match container with
  | .list xs => .ok (xs.any (fun e => Value.eq e x))
  | .str hay =>
    match x with
    | .str pat => .ok (hasSub pat.toList hay.toList)
    | _ => .error .typeError
  | .dict d =>
    if x.hashable then
      .ok (match x with | .str k => hasField d k | _ => false)
    else .error .typeError
  | _ => .error .typeError

/-- Python iteration over a value: a list yields its elements, a string its
one-character substrings, a dict its keys; other values raise `TypeError`. -/
def pyIter : Value → Except PyErr (List Value)
  | .list xs => .ok xs
  | .str s => .ok (s.toList.map (fun c => Value.str (String.mk [c])))
  | .dict d => .ok (d.map (fun p => Value.str p.1))
  | _ => .error .typeError

/-- The body of the `for key, value in query.items()` loop of
`InMemoryCollection._matches`, evaluating one field clause of a query against
a document:

* a key starting with `"$"` is skipped (`continue`), i.e. always passes;
* an operator document is checked for `"$in"`, then `"$gte"`, then `"$lte"`
  (the `if`/`elif` chain); an operator document with none of the three passes;
* any other value is an equality test against `item.get(key)`. -/
def matchClause (item : Doc) (key : String) (v : Value) : Except PyErr Bool :=
  if startsWithDollar key then .ok true
  else
    match v with
    | .dict opd =>
      match getField opd "$in" with
      | some inv =>
        (match getField item key with
         | some (.list xs) =>
           (pyIter inv).map (fun vs => vs.any (fun w => xs.any (fun e => Value.eq e w)))
         | itv => pyContains inv (itv.getD Value.none))
      | Option.none =>
        match getField opd "$gte" with
        | some b =>
          (match Value.lt ((getField item key).getD (Value.str "")) b with
           | some c => .ok (!c)
           | Option.none => .error .typeError)
        | Option.none =>
          match getField opd "$lte" with
          | some b =>
            (match Value.lt b ((getField item key).getD (Value.str "")) with
             | some c => .ok (!c)
             | Option.none => .error .typeError)
          | Option.none => .ok true
    | lit => .ok (Value.eq ((getField item key).getD Value.none) lit)

/-- The clause loop of `InMemoryCollection._matches`: the document matches
iff every clause passes, returning `False` at the first failing clause and
propagating the first raised error. -/
def matchesClauses (item : Doc) : List (String × Value) → Except PyErr Bool
  | [] => .ok true
  | (k, v) :: rest =>
    match matchClause item k v with
    | .error e => .error e
    | .ok true => matchesClauses item rest
    | .ok false => .ok false

/-- The backing store of a collection: either a plain list of documents
(`_activities_db`) or a dict keyed on `_id` (`_teachers_db`), kept in
insertion order. -/
inductive Store where
  | seq (docs : List Doc)
  | keyed (entries : List (Value × Doc))

/-- `self.data_store if isinstance(self.data_store, list) else
self.data_store.values()`: the documents of the store in iteration order. -/
def docsOf : Store → List Doc
  | .seq l => l
  | .keyed m => m.map (fun e => e.2)

/-- The document at position `i` of the store's iteration order. -/
def docAt (s : Store) (i : Nat) : Doc :=
  match s with
  | .seq l => l.getD i []
  | .keyed m => (m.getD i (Value.none, [])).2

/-- Replace the document at position `i`, modelling Python's in-place
mutation of the stored dict: a keyed store keeps its key unchanged. -/
def setDocAt (s : Store) (i : Nat) (d : Doc) : Store :=
  match s with
  | .seq l => .seq (l.set i d)
  | .keyed m => .keyed (m.set i ((m.getD i (Value.none, [])).1, d))

/-- `store[v] = d` for a keyed store: overwrite the first `==`-equal key in
place (Python dicts keep the original key object and position), else append. -/
def keyedSet : List (Value × Doc) → Value → Doc → List (Value × Doc)
  | [], v, d => [(v, d)]
  | (k, e) :: rest, v, d =>
    if Value.eq k v then (k, d) :: rest else (k, e) :: keyedSet rest v d

/-- Position of the first entry of a keyed store whose key is `==`-equal to
`v` (Python `dict.get` resolution, for a hashable probe). -/
def keyedIdx : List (Value × Doc) → Value → Option Nat
  | [], _ => Option.none
  | (k, _) :: rest, v =>
    if Value.eq k v then some 0 else (keyedIdx rest v).map (· + 1)

/-- Position of the first document whose `item.get("_id")` is `==`-equal to
`v` (the `_id` scan of `find_one` on a list-backed store). -/
def seqIdIdx : List Doc → Value → Option Nat
  | [], _ => Option.none
  | d :: rest, v =>
    if Value.eq ((getField d "_id").getD Value.none) v then some 0
    else (seqIdIdx rest v).map (· + 1)

namespace InMemoryCollection

/-- `InMemoryCollection._matches`: the guard `if not query: return True`
followed by the clause loop. -/
def _matches (item : Doc) (query : Query) : Except PyErr Bool :=
  if query.isEmpty then .ok true else matchesClauses item query

/-- The scan loop shared by `find`, `find_one` and `update_one`:
position of the first document matching the query. -/
def scanIdx (q : Query) : List Doc → Except PyErr (Option Nat)
  | [] => .ok Option.none
  | d :: rest =>
    match _matches d q with
    | .error e => .error e
    | .ok true => .ok (some 0)
    | .ok false =>
      match scanIdx q rest with
      | .error e => .error e
      | .ok oi => .ok (oi.map (· + 1))

/-- The filtering loop of `InMemoryCollection.find`. -/
def findList (q : Query) : List Doc → Except PyErr (List Doc)
  | [] => .ok []
  | d :: rest =>
    match _matches d q with
    | .error e => .error e
    | .ok b =>
      match findList q rest with
      | .error e => .error e
      | .ok r => .ok (if b then d :: r else r)

/-- `InMemoryCollection.find` (a `query=None` call passes the empty query). -/
def find (s : Store) (q : Query) : Except PyErr (List Doc) :=
  findList q (docsOf s)

/-- The document-resolution algorithm of `InMemoryCollection.find_one`,
returning the position of the located document:

* if the query has an `"_id"` key, a keyed store answers with a direct
  `dict.get` (raising `TypeError` on an unhashable probe, and returning its
  answer without consulting the other clauses), while a list-backed store
  scans for an `==`-equal `"_id"` field and, when that scan finds nothing,
  falls through to the general scan (the Python `for` loop has no `else`);
* otherwise the general matching scan runs. -/
def findOneIdx (s : Store) (q : Query) : Except PyErr (Option Nat) :=
  match getField q "_id" with
  | some qid =>
    (match s with
     | .keyed m => if qid.hashable then .ok (keyedIdx m qid) else .error .typeError
     | .seq l =>
       match seqIdIdx l qid with
       | some i => .ok (some i)
       | Option.none => scanIdx q l)
  | Option.none => scanIdx q (docsOf s)

/-- `InMemoryCollection.find_one`. -/
def find_one (s : Store) (q : Query) : Except PyErr (Option Doc) :=
  match findOneIdx s q with
  | .error e => .error e
  | .ok oi => .ok (oi.map (docAt s))

/-- `InMemoryCollection.insert_one`: append for a list-backed store;
`store[document["_id"]] = document` for a keyed store, raising `KeyError`
when the document has no `"_id"` and `TypeError` when the id is unhashable.
Returns the new store together with `document.get("_id")` (the
`inserted_id` of the returned result object). -/
def insert_one (s : Store) (document : Doc) : Except PyErr (Store × Value) :=
  match s with
  | .seq l => .ok (.seq (l ++ [document]), (getField document "_id").getD Value.none)
  | .keyed m =>
    match getField document "_id" with
    | some v =>
      if v.hashable then
        .ok (.keyed (keyedSet m v document), (getField document "_id").getD Value.none)
      else .error .typeError
    | Option.none => .error .keyError

/-- `InMemoryCollection.insert_many`: insert each document in order. -/
def insert_many (s : Store) (documents : List Doc) : Except PyErr Store :=
  match documents with
  | [] => .ok s
  | d :: rest =>
    match insert_one s d with
    | .error e => .error e
    | .ok (s2, _) => insert_many s2 rest

/-- `item.update(update["$set"])`: overwrite or create each named field. -/
def applySet (d : Doc) (m : List (String × Value)) : Doc :=
  m.foldl (fun acc kv => setField acc kv.1 kv.2) d

/-- The `$push` loop of `update_one`: for each named field, create it as an
empty list when absent, then append; a present non-list value has no
`.append` and raises `AttributeError`. -/
def applyPush (d : Doc) (m : List (String × Value)) : Except PyErr Doc :=
  match m with
  | [] => .ok d
  | (k, x) :: rest =>
    match getField d k with
    | some (.list xs) => applyPush (setField d k (.list (xs ++ [x]))) rest
    | some _ => .error .attributeError
    | Option.none => applyPush (setField d k (.list [x])) rest

/-- `InMemoryCollection.update_one`: locate a document via `find_one`'s
resolution; the guard `if item:` skips the update not only when nothing was
found but also when the located document is an empty (falsy) dict.  `$set`
is applied before `$push`; a non-dict `$set` value raises `TypeError`
(`dict.update` on e.g. an integer) and a non-dict `$push` value has no
`.items()` and raises `AttributeError`.  Mutation is in place. -/
def update_one (s : Store) (q : Query) (u : Update) : Except PyErr Store :=
  match findOneIdx s q with
  | .error e => .error e
  | .ok Option.none => .ok s
  | .ok (some i) =>
    let item := docAt s i
    if item.isEmpty then .ok s
    else
      match (match getField u "$set" with
             | some (.dict m) => Except.ok (applySet item m)
             | some _ => Except.error PyErr.typeError
             | Option.none => Except.ok item) with
      | .error e => .error e
      | .ok d1 =>
        match (match getField u "$push" with
               | some (.dict mp) => applyPush d1 mp
               | some _ => Except.error PyErr.attributeError
               | Option.none => Except.ok d1) with
        | .error e => .error e
        | .ok d2 => .ok (setDocAt s i d2)

/-- `InMemoryCollection.count_documents`: `len(self.find(query))`. -/
def count_documents (s : Store) (q : Query) : Except PyErr Nat :=
  (find s q).map List.length

end InMemoryCollection

/-! ## Basic lemmas about dict operations -/

open InMemoryCollection

theorem getField_setField_self (d : Doc) (k : String) (v : Value) :
    getField (setField d k v) k = some v := by
  induction d with
  | nil => simp [setField, getField]
  | cons kv rest ih =>
    obtain ⟨k0, v0⟩ := kv
    by_cases h : k0 = k
    · subst h; simp [setField, getField]
    · simp [setField, getField, h, ih]

theorem getField_setField_ne (d : Doc) (k k2 : String) (v : Value) (h : k2 ≠ k) :
    getField (setField d k v) k2 = getField d k2 := by
  induction d with
  | nil => simp [setField, getField, Ne.symm h]
  | cons kv rest ih =>
    obtain ⟨k0, v0⟩ := kv
    by_cases h0 : k0 = k
    · subst h0; simp [setField, getField, Ne.symm h]
    · simp [setField, getField, h0, ih]

theorem setField_ne_nil (d : Doc) (k : String) (v : Value) :
    (setField d k v).isEmpty = false := by
  cases d with
  | nil => simp [setField]
  | cons kv rest =>
    obtain ⟨k0, v0⟩ := kv
    by_cases h : k0 = k <;> simp [setField, h]

theorem applySet_cons (d : Doc) (kv : String × Value) (rest : List (String × Value)) :
    applySet d (kv :: rest) = applySet (setField d kv.1 kv.2) rest := rfl

theorem getField_applySet_not_mem (m : List (String × Value)) (d : Doc) (k : String)
    (h : k ∉ m.map Prod.fst) : getField (applySet d m) k = getField d k := by
  induction m generalizing d with
  | nil => rfl
  | cons kv rest ih =>
    simp only [List.map_cons, List.mem_cons, not_or] at h
    rw [applySet_cons, ih _ h.2, getField_setField_ne _ _ _ _ h.1]

theorem getField_applySet_mem (m : List (String × Value)) (d : Doc) (k : String) (v : Value)
    (hnd : (m.map Prod.fst).Nodup) (hmem : (k, v) ∈ m) :
    getField (applySet d m) k = some v := by
  induction m generalizing d with
  | nil => cases hmem
  | cons kv rest ih =>
    simp only [List.map_cons, List.nodup_cons] at hnd
    rcases List.mem_cons.mp hmem with hh | ht
    · subst hh
      rw [applySet_cons, getField_applySet_not_mem _ _ _ hnd.1]
      exact getField_setField_self _ _ _
    · rw [applySet_cons]
      exact ih _ hnd.2 ht

theorem applySet_isEmpty (d : Doc) (m : List (String × Value)) :
    (applySet d m).isEmpty = true → m = [] ∧ d = [] := by
  induction m generalizing d with
  | nil =>
    intro h
    exact ⟨rfl, by simpa [applySet, List.isEmpty_iff] using h⟩
  | cons kv rest ih =>
    intro h
    rw [applySet_cons] at h
    rcases ih _ h with ⟨_, habs⟩
    have := setField_ne_nil d kv.1 kv.2
    rw [habs] at this
    simp at this

theorem Value.eq_self_of_hashable (v : Value) (h : v.hashable = true) :
    Value.eq v v = true := by
  cases v <;> simp_all [Value.hashable, Value.eq]

/-! ## Congruence: matching only reads the queried fields -/

theorem matchClause_congr (d1 d2 : Doc) (k : String) (v : Value)
    (h : getField d1 k = getField d2 k) : matchClause d1 k v = matchClause d2 k v := by
  unfold matchClause
  rw [h]

theorem matchesClauses_cons (d : Doc) (k : String) (v : Value) (rest : List (String × Value)) :
    matchesClauses d ((k, v) :: rest)
      = match matchClause d k v with
        | .error e => .error e
        | .ok true => matchesClauses d rest
        | .ok false => .ok false := rfl

theorem matchesClauses_congr (q : List (String × Value)) (d1 d2 : Doc)
    (h : ∀ kv ∈ q, getField d1 kv.1 = getField d2 kv.1) :
    matchesClauses d1 q = matchesClauses d2 q := by
  induction q with
  | nil => rfl
  | cons kv rest ih =>
    obtain ⟨k, v⟩ := kv
    rw [matchesClauses_cons, matchesClauses_cons,
      matchClause_congr d1 d2 k v (h (k, v) (List.mem_cons_self _ _)),
      ih (fun kv hm => h kv (List.mem_cons_of_mem _ hm))]

theorem InMemoryCollection.matches_congr (q : Query) (d1 d2 : Doc)
    (h : ∀ kv ∈ q, getField d1 kv.1 = getField d2 kv.1) :
    InMemoryCollection._matches d1 q = InMemoryCollection._matches d2 q := by
  unfold InMemoryCollection._matches
  by_cases hq : q.isEmpty
  · simp [hq]
  · simp only [hq, Bool.false_eq_true, if_false]
    exact matchesClauses_congr q d1 d2 h

/-! ## The match of a whole query is the conjunction of its clauses -/

theorem matchesClauses_ok_true_iff (d : Doc) (q : List (String × Value)) :
    matchesClauses d q = .ok true ↔ ∀ kv ∈ q, matchClause d kv.1 kv.2 = .ok true := by
  induction q with
  | nil => simp [matchesClauses]
  | cons kv rest ih =>
    obtain ⟨k, v⟩ := kv
    cases hcl : matchClause d k v with
    | error e => simp [matchesClauses_cons, hcl, List.forall_mem_cons, ih]
    | ok b => cases b <;> simp [matchesClauses_cons, hcl, List.forall_mem_cons, ih]

/-! ## Positional list helpers -/

theorem getD_set_self {α : Type _} (a dflt : α) :
    ∀ (l : List α) (i : Nat), i < l.length → (l.set i a).getD i dflt = a := by
  intro l
  induction l with
  | nil => intro i h; simp at h
  | cons b rest ih =>
    intro i h
    cases i with
    | zero => simp [List.getD]
    | succ j =>
      have := ih j (by simpa using h)
      simpa [List.getD] using this

theorem getField_eq_some_mem (d : Doc) (k : String) (v : Value)
    (h : getField d k = some v) : (k, v) ∈ d := by
  induction d with
  | nil => simp [getField] at h
  | cons kv rest ih =>
    obtain ⟨k0, v0⟩ := kv
    by_cases h0 : k0 = k
    · subst h0
      have h3 : v0 = v := by simpa [getField] using h
      subst h3
      exact List.mem_cons_self _ _
    · simp only [getField, if_neg h0] at h
      exact List.mem_cons_of_mem _ (ih h)

/-! ## Lemmas about the scan loops -/

theorem scanIdx_some_lt (q : Query) :
    ∀ (l : List Doc) (i : Nat), scanIdx q l = .ok (some i) → i < l.length := by
  intro l
  induction l with
  | nil => intro i h; simp [scanIdx] at h
  | cons d rest ih =>
    intro i h
    cases hm : _matches d q with
    | error e => simp [scanIdx, hm] at h
    | ok b =>
      cases b with
      | true =>
        simp [scanIdx, hm] at h
        simp [← h]
      | false =>
        cases hr : scanIdx q rest with
        | error e => simp [scanIdx, hm, hr] at h
        | ok oi =>
          cases oi with
          | none => simp [scanIdx, hm, hr] at h
          | some j =>
            simp [scanIdx, hm, hr] at h
            have := ih j hr
            simp only [List.length_cons]
            omega

theorem scanIdx_none_of_all_false (q : Query) :
    ∀ (l : List Doc), (∀ d ∈ l, _matches d q = .ok false) →
      scanIdx q l = .ok Option.none := by
  intro l
  induction l with
  | nil => intro h; rfl
  | cons d rest ih =>
    intro h
    have hm := h d (List.mem_cons_self _ _)
    have hr := ih (fun d2 hd2 => h d2 (List.mem_cons_of_mem _ hd2))
    simp [scanIdx, hm, hr]

theorem scanIdx_total (q : Query) :
    ∀ (l : List Doc), (∀ d ∈ l, ∃ b, _matches d q = .ok b) →
      ∃ r, scanIdx q l = .ok r := by
  intro l
  induction l with
  | nil => intro h; exact ⟨Option.none, rfl⟩
  | cons d rest ih =>
    intro h
    obtain ⟨b, hb⟩ := h d (List.mem_cons_self _ _)
    cases b with
    | true => exact ⟨some 0, by simp [scanIdx, hb]⟩
    | false =>
      obtain ⟨r, hr⟩ := ih (fun d2 hd2 => h d2 (List.mem_cons_of_mem _ hd2))
      exact ⟨r.map (· + 1), by simp [scanIdx, hb, hr]⟩

theorem scanIdx_set_stable (q : Query) :
    ∀ (l : List Doc) (i : Nat) (d2 : Doc), i < l.length →
      _matches d2 q = _matches (l.getD i []) q →
      scanIdx q (l.set i d2) = scanIdx q l := by
  intro l
  induction l with
  | nil => intro i d2 h; simp at h
  | cons d rest ih =>
    intro i d2 hi hm
    cases i with
    | zero =>
      have hm0 : _matches d2 q = _matches d q := by simpa [List.getD] using hm
      simp only [List.set_cons_zero, scanIdx]
      rw [hm0]
    | succ j =>
      have hm2 : _matches d2 q = _matches (rest.getD j []) q := by
        simpa [List.getD] using hm
      have hj : j < rest.length := by simpa using hi
      simp only [List.set_cons_succ, scanIdx]
      rw [ih j d2 hj hm2]

theorem findList_total (q : Query) :
    ∀ (l : List Doc), (∀ d ∈ l, ∃ b, _matches d q = .ok b) →
      ∃ r, findList q l = .ok r := by
  intro l
  induction l with
  | nil => intro h; exact ⟨[], rfl⟩
  | cons d rest ih =>
    intro h
    obtain ⟨b, hb⟩ := h d (List.mem_cons_self _ _)
    obtain ⟨r, hr⟩ := ih (fun d2 hd2 => h d2 (List.mem_cons_of_mem _ hd2))
    exact ⟨if b then d :: r else r, by simp [findList, hb, hr]⟩

theorem seqIdIdx_some_lt :
    ∀ (l : List Doc) (v : Value) (i : Nat), seqIdIdx l v = some i → i < l.length := by
  intro l
  induction l with
  | nil => intro v i h; simp [seqIdIdx] at h
  | cons d rest ih =>
    intro v i h
    by_cases he : Value.eq ((getField d "_id").getD Value.none) v = true
    · simp [seqIdIdx, he] at h
      simp [← h]
    · simp only [seqIdIdx, if_neg he] at h
      cases hs : seqIdIdx rest v with
      | none => rw [hs] at h; simp at h
      | some j =>
        rw [hs] at h
        simp only [Option.map_some', Option.some.injEq] at h
        have := ih v j hs
        simp only [List.length_cons]
        omega

theorem seqIdIdx_set_stable :
    ∀ (l : List Doc) (i : Nat) (d2 : Doc) (v : Value), i < l.length →
      getField d2 "_id" = getField (l.getD i []) "_id" →
      seqIdIdx (l.set i d2) v = seqIdIdx l v := by
  intro l
  induction l with
  | nil => intro i d2 v h; simp at h
  | cons d rest ih =>
    intro i d2 v hi hid
    cases i with
    | zero =>
      have hid0 : getField d2 "_id" = getField d "_id" := by simpa [List.getD] using hid
      simp only [List.set_cons_zero, seqIdIdx]
      rw [hid0]
    | succ j =>
      have hid2 : getField d2 "_id" = getField (rest.getD j []) "_id" := by
        simpa [List.getD] using hid
      have hj : j < rest.length := by simpa using hi
      simp only [List.set_cons_succ, seqIdIdx]
      rw [ih j d2 v hj hid2]

theorem keyedIdx_some_lt :
    ∀ (m : List (Value × Doc)) (v : Value) (i : Nat), keyedIdx m v = some i → i < m.length := by
  intro m
  induction m with
  | nil => intro v i h; simp [keyedIdx] at h
  | cons p rest ih =>
    obtain ⟨k, e⟩ := p
    intro v i h
    by_cases he : Value.eq k v = true
    · simp [keyedIdx, he] at h
      simp [← h]
    · simp only [keyedIdx, if_neg he] at h
      cases hs : keyedIdx rest v with
      | none => rw [hs] at h; simp at h
      | some j =>
        rw [hs] at h
        simp only [Option.map_some', Option.some.injEq] at h
        have := ih v j hs
        simp only [List.length_cons]
        omega

theorem keyedIdx_set_snd :
    ∀ (m : List (Value × Doc)) (i : Nat) (d2 : Doc) (v : Value),
      keyedIdx (m.set i ((m.getD i (Value.none, [])).1, d2)) v = keyedIdx m v := by
  intro m
  induction m with
  | nil => intro i d2 v; rfl
  | cons p rest ih =>
    obtain ⟨k, e⟩ := p
    intro i d2 v
    cases i with
    | zero =>
      have h0 : ((k, e) :: rest).getD 0 (Value.none, []) = (k, e) := rfl
      rw [h0]
      simp only [List.set_cons_zero, keyedIdx]
    | succ j =>
      have hstep : ((k, e) :: rest).getD (j + 1) (Value.none, []) = rest.getD j (Value.none, []) := by
        simp [List.getD]
      rw [hstep]
      simp only [List.set_cons_succ, keyedIdx]
      rw [ih j d2 v]

/-! ## Store positional lemmas -/

theorem docsOf_setDocAt (s : Store) (i : Nat) (d : Doc) :
    docsOf (setDocAt s i d) = (docsOf s).set i d := by
  cases s with
  | seq l => rfl
  | keyed m => simp [docsOf, setDocAt, List.map_set]

theorem getD_map_snd (m : List (Value × Doc)) (i : Nat) :
    (m.map (fun e => e.2)).getD i [] = (m.getD i (Value.none, [])).2 := by
  induction m generalizing i with
  | nil => rfl
  | cons p rest ih =>
    cases i with
    | zero => rfl
    | succ j => exact ih j

theorem docAt_eq_getD (s : Store) (i : Nat) : docAt s i = (docsOf s).getD i [] := by
  cases s with
  | seq l => rfl
  | keyed m => exact (getD_map_snd m i).symm

theorem docAt_setDocAt_self (s : Store) (i : Nat) (d : Doc)
    (h : i < (docsOf s).length) : docAt (setDocAt s i d) i = d := by
  rw [docAt_eq_getD, docsOf_setDocAt]
  exact getD_set_self d [] (docsOf s) i h

/-! ## Lemmas about document resolution -/

theorem findOneIdx_some_lt (s : Store) (q : Query) (i : Nat)
    (h : findOneIdx s q = .ok (some i)) : i < (docsOf s).length := by
  unfold findOneIdx at h
  cases hq : getField q "_id" with
  | none =>
    simp only [hq] at h
    exact scanIdx_some_lt q (docsOf s) i h
  | some qid =>
    cases s with
    | keyed m =>
      simp only [hq] at h
      cases hh : qid.hashable with
      | false => simp [hh] at h
      | true =>
        simp [hh] at h
        have := keyedIdx_some_lt m qid i h
        simpa [docsOf] using this
    | seq l =>
      simp only [hq] at h
      cases hs : seqIdIdx l qid with
      | some j =>
        simp only [hs, Except.ok.injEq, Option.some.injEq] at h
        subst h
        simpa [docsOf] using seqIdIdx_some_lt l qid _ hs
      | none =>
        simp only [hs] at h
        exact scanIdx_some_lt q l i h

theorem findOneIdx_set_stable (s : Store) (q : Query) (i : Nat) (d2 : Doc)
    (h : findOneIdx s q = .ok (some i))
    (hagree : ∀ kv ∈ q, getField d2 kv.1 = getField (docAt s i) kv.1) :
    findOneIdx (setDocAt s i d2) q = .ok (some i) := by
  have hi : i < (docsOf s).length := findOneIdx_some_lt s q i h
  have hmeq : _matches d2 q = _matches ((docsOf s).getD i []) q := by
    rw [← docAt_eq_getD]
    exact matches_congr q d2 (docAt s i) hagree
  cases s with
  | seq l =>
    have hil : i < l.length := by simpa [docsOf] using hi
    have hmeq2 : _matches d2 q = _matches (l.getD i []) q := by simpa [docsOf] using hmeq
    cases hq : getField q "_id" with
    | none =>
      simp only [findOneIdx, setDocAt, hq] at h ⊢
      show scanIdx q (l.set i d2) = .ok (some i)
      rw [scanIdx_set_stable q l i d2 hil hmeq2]
      exact h
    | some qid =>
      have hid : getField d2 "_id" = getField (l.getD i []) "_id" := by
        have hmem := getField_eq_some_mem q "_id" qid hq
        have h2 := hagree ("_id", qid) hmem
        rw [docAt_eq_getD] at h2
        simpa [docsOf] using h2
      simp only [findOneIdx, setDocAt, hq] at h ⊢
      rw [seqIdIdx_set_stable l i d2 qid hil hid]
      cases hs : seqIdIdx l qid with
      | some j =>
        simp only [hs] at h ⊢
        exact h
      | none =>
        simp only [hs] at h ⊢
        rw [scanIdx_set_stable q l i d2 hil hmeq2]
        exact h
  | keyed m =>
    cases hq : getField q "_id" with
    | none =>
      simp only [findOneIdx, setDocAt, hq, docsOf] at h ⊢
      simp only [List.map_set]
      rw [scanIdx_set_stable q (m.map (fun e => e.2)) i d2 (by simpa [docsOf] using hi)
        (by simpa [docsOf] using hmeq)]
      exact h
    | some qid =>
      simp only [findOneIdx, setDocAt, hq] at h ⊢
      cases hh : qid.hashable with
      | false => simp [hh] at h
      | true =>
        simp only [hh, if_true] at h ⊢
        rw [keyedIdx_set_snd m i d2 qid]
        exact h

/-! ## Evaluation lemmas for update_one -/

theorem update_one_located_noop (s : Store) (q : Query) (u : Update)
    (h : findOneIdx s q = .ok Option.none) : update_one s q u = .ok s := by
  simp only [update_one, h]

theorem update_one_set_run (s : Store) (q : Query) (m : List (String × Value)) (i : Nat)
    (hidx : findOneIdx s q = .ok (some i)) (hne : (docAt s i).isEmpty = false) :
    update_one s q [("$set", Value.dict m)]
      = .ok (setDocAt s i (applySet (docAt s i) m)) := by
  have h1 : getField [("$set", Value.dict m)] "$set" = some (Value.dict m) := rfl
  have h2 : getField ([("$set", Value.dict m)] : Update) "$push" = Option.none := rfl
  simp only [update_one, hidx, hne, h1, h2, Bool.false_eq_true, if_false]

theorem update_one_push_run (s : Store) (q : Query) (mp : List (String × Value)) (i : Nat)
    (d2 : Doc) (hidx : findOneIdx s q = .ok (some i)) (hne : (docAt s i).isEmpty = false)
    (hpush : applyPush (docAt s i) mp = .ok d2) :
    update_one s q [("$push", Value.dict mp)] = .ok (setDocAt s i d2) := by
  have h1 : getField ([("$push", Value.dict mp)] : Update) "$set" = Option.none := rfl
  have h2 : getField [("$push", Value.dict mp)] "$push" = some (Value.dict mp) := rfl
  simp only [update_one, hidx, hne, h1, h2, hpush, Bool.false_eq_true, if_false]

theorem update_one_set_push_run (s : Store) (q : Query)
    (ms mp : List (String × Value)) (i : Nat) (d2 : Doc)
    (hidx : findOneIdx s q = .ok (some i)) (hne : (docAt s i).isEmpty = false)
    (hpush : applyPush (applySet (docAt s i) ms) mp = .ok d2) :
    update_one s q [("$set", Value.dict ms), ("$push", Value.dict mp)]
      = .ok (setDocAt s i d2) := by
  have h1 : getField [("$set", Value.dict ms), ("$push", Value.dict mp)] "$set"
      = some (Value.dict ms) := rfl
  have h2 : getField [("$set", Value.dict ms), ("$push", Value.dict mp)] "$push"
      = some (Value.dict mp) := rfl
  simp only [update_one, hidx, hne, h1, h2, hpush, Bool.false_eq_true, if_false]

/-! ## Evaluation lemmas for applyPush and matchClause -/

theorem applyPush_single_absent (d : Doc) (k : String) (x : Value)
    (h : getField d k = Option.none) :
    applyPush d [(k, x)] = .ok (setField d k (.list [x])) := by
  simp [applyPush, h]

theorem applyPush_single_list (d : Doc) (k : String) (x : Value) (xs : List Value)
    (h : getField d k = some (.list xs)) :
    applyPush d [(k, x)] = .ok (setField d k (.list (xs ++ [x]))) := by
  simp [applyPush, h]

theorem applyPush_total (mp : List (String × Value)) :
    ∀ (d : Doc),
      (∀ kx ∈ mp, getField d kx.1 = Option.none ∨ ∃ xs, getField d kx.1 = some (.list xs)) →
      ∃ d2, applyPush d mp = .ok d2 := by
  induction mp with
  | nil => intro d h; exact ⟨d, rfl⟩
  | cons kx rest ih =>
    obtain ⟨k, x⟩ := kx
    intro d h
    rcases h (k, x) (List.mem_cons_self _ _) with hn | ⟨xs, hl⟩
    · have hcond : ∀ kx2 ∈ rest,
          getField (setField d k (Value.list [x])) kx2.1 = Option.none ∨
          ∃ ys, getField (setField d k (Value.list [x])) kx2.1 = some (.list ys) := by
        intro kx2 hm
        by_cases hk : kx2.1 = k
        · right; exact ⟨[x], by rw [hk]; exact getField_setField_self d k _⟩
        · rw [getField_setField_ne d k kx2.1 _ hk]
          exact h kx2 (List.mem_cons_of_mem _ hm)
      obtain ⟨d2, hd2⟩ := ih (setField d k (Value.list [x])) hcond
      exact ⟨d2, by simp [applyPush, hn, hd2]⟩
    · have hcond : ∀ kx2 ∈ rest,
          getField (setField d k (Value.list (xs ++ [x]))) kx2.1 = Option.none ∨
          ∃ ys, getField (setField d k (Value.list (xs ++ [x]))) kx2.1 = some (.list ys) := by
        intro kx2 hm
        by_cases hk : kx2.1 = k
        · right; exact ⟨xs ++ [x], by rw [hk]; exact getField_setField_self d k _⟩
        · rw [getField_setField_ne d k kx2.1 _ hk]
          exact h kx2 (List.mem_cons_of_mem _ hm)
      obtain ⟨d2, hd2⟩ := ih (setField d k (Value.list (xs ++ [x]))) hcond
      exact ⟨d2, by simp [applyPush, hl, hd2]⟩

theorem matches_singleton (item : Doc) (f : String) (v : Value) :
    _matches item [(f, v)] = matchClause item f v := by
  cases h : matchClause item f v with
  | error e => simp [_matches, matchesClauses_cons, h, matchesClauses]
  | ok b => cases b <;> simp [_matches, matchesClauses_cons, h, matchesClauses]

theorem matchClause_gte (item : Doc) (f : String) (b : Value)
    (hf : startsWithDollar f = false) :
    matchClause item f (.dict [("$gte", b)])
      = match Value.lt ((getField item f).getD (Value.str "")) b with
        | some c => .ok (!c)
        | Option.none => .error .typeError := by
  have h1 : getField [("$gte", b)] "$in" = Option.none := rfl
  have h2 : getField [("$gte", b)] "$gte" = some b := rfl
  simp only [matchClause, hf, Bool.false_eq_true, if_false, h1, h2]

theorem matchClause_lte (item : Doc) (f : String) (b : Value)
    (hf : startsWithDollar f = false) :
    matchClause item f (.dict [("$lte", b)])
      = match Value.lt b ((getField item f).getD (Value.str "")) with
        | some c => .ok (!c)
        | Option.none => .error .typeError := by
  have h1 : getField [("$lte", b)] "$in" = Option.none := rfl
  have h2 : getField [("$lte", b)] "$gte" = Option.none := rfl
  have h3 : getField [("$lte", b)] "$lte" = some b := rfl
  simp only [matchClause, hf, Bool.false_eq_true, if_false, h1, h2, h3]

theorem matchClause_in_list_field (item : Doc) (f : String) (inv : Value) (xs : List Value)
    (hf : startsWithDollar f = false) (hit : getField item f = some (.list xs)) :
    matchClause item f (.dict [("$in", inv)])
      = (pyIter inv).map (fun vs => vs.any (fun w => xs.any (fun e => Value.eq e w))) := by
  have h1 : getField [("$in", inv)] "$in" = some inv := rfl
  simp only [matchClause, hf, Bool.false_eq_true, if_false, h1, hit]

theorem matchClause_in_scalar_field (item : Doc) (f : String) (inv : Value)
    (hf : startsWithDollar f = false)
    (hit : ∀ xs, getField item f ≠ some (.list xs)) :
    matchClause item f (.dict [("$in", inv)])
      = pyContains inv ((getField item f).getD Value.none) := by
  have h1 : getField [("$in", inv)] "$in" = some inv := rfl
  simp only [matchClause, hf, Bool.false_eq_true, if_false, h1]

/-! ## Lemmas about keyed insertion -/

theorem keyedIdx_keyedSet (m : List (Value × Doc)) (v : Value) (d : Doc)
    (hv : Value.eq v v = true) :
    ∃ i, keyedIdx (keyedSet m v d) v = some i ∧
      ((keyedSet m v d).getD i (Value.none, [])).2 = d := by
  induction m with
  | nil => exact ⟨0, by simp [keyedSet, keyedIdx, hv], rfl⟩
  | cons p rest ih =>
    obtain ⟨k, e⟩ := p
    by_cases hk : Value.eq k v = true
    · exact ⟨0, by simp [keyedSet, keyedIdx, hk], by simp [keyedSet, hk]⟩
    · obtain ⟨j, hj1, hj2⟩ := ih
      refine ⟨j + 1, ?_, ?_⟩
      · simp [keyedSet, hk, keyedIdx, hj1]
      · simpa [keyedSet, hk, List.getD] using hj2

theorem countP_keyedSet (m : List (Value × Doc)) (v : Value) (d : Doc)
    (hv : Value.eq v v = true)
    (hle : m.countP (fun e => Value.eq e.1 v) ≤ 1) :
    (keyedSet m v d).countP (fun e => Value.eq e.1 v) = 1 := by
  induction m with
  | nil => simp [keyedSet, List.countP_cons, hv]
  | cons p rest ih =>
    obtain ⟨k, e⟩ := p
    by_cases hk : Value.eq k v = true
    · have hc : ((k, e) :: rest).countP (fun e => Value.eq e.1 v)
          = rest.countP (fun e => Value.eq e.1 v) + 1 := by
        simp [List.countP_cons, hk]
      have h0 : rest.countP (fun e => Value.eq e.1 v) = 0 := by omega
      simp [keyedSet, hk, List.countP_cons, h0]
    · have hle2 : rest.countP (fun e => Value.eq e.1 v) ≤ 1 := by
        simpa [List.countP_cons, hk] using hle
      simp [keyedSet, hk, List.countP_cons, ih hle2]

theorem insert_one_keyed_run (m : List (Value × Doc)) (d : Doc) (v : Value)
    (h1 : getField d "_id" = some v) (h2 : v.hashable = true) :
    insert_one (.keyed m) d = .ok (.keyed (keyedSet m v d), v) := by
  simp [insert_one, h1, h2]

theorem find_one_keyedSet (m : List (Value × Doc)) (d : Doc) (v : Value)
    (hh : v.hashable = true) :
    find_one (.keyed (keyedSet m v d)) [("_id", v)] = .ok (some d) := by
  obtain ⟨i, hi1, hi2⟩ := keyedIdx_keyedSet m v d (Value.eq_self_of_hashable v hh)
  have hq : getField [("_id", v)] "_id" = some v := rfl
  simp [find_one, findOneIdx, hq, hh, hi1, docAt]
  simpa [List.getD] using hi2

/-! ## The empty query -/

theorem findList_nil_query : ∀ (l : List Doc), findList ([] : Query) l = .ok l := by
  intro l
  induction l with
  | nil => rfl
  | cons d rest ih => simp [findList, _matches, ih]

/-! ## Claims -/

/-- C1: on a keyed-backed collection, `insert_one` with a document whose `_id`
equals an existing document's `_id` silently replaces that document
(last-write-wins, no uniqueness error) and returns the inserted document's
identity value; concretely, starting from an empty keyed collection,
`insert_one({_id:"A", x:1})` makes `find_one({_id:"A"})` return that document,
a further `insert_one({_id:"A", x:2})` makes it return the new document, and a
single document is stored under `"A"`. -/
theorem c1_insert_one_keyed_overwrite (m : List (Value × Doc)) (d : Doc) (v : Value)
    (hid : getField d "_id" = some v) (hh : v.hashable = true)
    (huniq : m.countP (fun e => Value.eq e.1 v) ≤ 1) :
    (insert_one (.keyed m) d = .ok (.keyed (keyedSet m v d), v)
      ∧ find_one (.keyed (keyedSet m v d)) [("_id", v)] = .ok (some d)
      ∧ (keyedSet m v d).countP (fun e => Value.eq e.1 v) = 1)
    ∧ (insert_one (.keyed []) [("_id", .str "A"), ("x", .int 1)]
        = .ok (.keyed [(.str "A", [("_id", .str "A"), ("x", .int 1)])], .str "A")
      ∧ find_one (.keyed [(.str "A", [("_id", .str "A"), ("x", .int 1)])]) [("_id", .str "A")]
        = .ok (some [("_id", .str "A"), ("x", .int 1)])
      ∧ insert_one (.keyed [(.str "A", [("_id", .str "A"), ("x", .int 1)])])
          [("_id", .str "A"), ("x", .int 2)]
        = .ok (.keyed [(.str "A", [("_id", .str "A"), ("x", .int 2)])], .str "A")
      ∧ find_one (.keyed [(.str "A", [("_id", .str "A"), ("x", .int 2)])]) [("_id", .str "A")]
        = .ok (some [("_id", .str "A"), ("x", .int 2)])) := by
  refine ⟨⟨insert_one_keyed_run m d v hid hh, find_one_keyedSet m d v hh,
    countP_keyedSet m v d (Value.eq_self_of_hashable v hh) huniq⟩, rfl, rfl, rfl, rfl⟩

/-- Witness for C1 at a concrete input. -/
theorem c1_witness :
    insert_one (.keyed []) [("_id", Value.str "B")]
      = .ok (.keyed [(Value.str "B", [("_id", Value.str "B")])], Value.str "B")
    ∧ find_one (.keyed [(Value.str "B", [("_id", Value.str "B")])]) [("_id", Value.str "B")]
      = .ok (some [("_id", Value.str "B")]) := by
  have h := c1_insert_one_keyed_overwrite [] [("_id", Value.str "B")] (Value.str "B")
    rfl rfl (by simp)
  exact ⟨h.1.1, h.1.2.1⟩

/-- C2: a clause `{f: {$gte: b}}` matches a document iff its value of `f`
(defaulting to `""` when absent) is not less than `b` under Python's ordering
(lexicographic by code point for strings), `{f: {$lte: b}}` symmetrically, and
over documents with `expiration_date` values `"2026-02-28"` and `"2026-03-15"`
the query `{expiration_date: {$gte: "2026-03-01"}}` returns only the second. -/
theorem c2_gte_lte_range_matching (item : Doc) (f : String) (b : Value)
    (hf : startsWithDollar f = false) :
    (∀ c, Value.lt ((getField item f).getD (Value.str "")) b = some c →
        _matches item [(f, Value.dict [("$gte", b)])] = .ok (!c))
    ∧ (∀ c, Value.lt b ((getField item f).getD (Value.str "")) = some c →
        _matches item [(f, Value.dict [("$lte", b)])] = .ok (!c))
    ∧ (∀ s t : String, (getField item f).getD (Value.str "") = Value.str s →
        (_matches item [(f, Value.dict [("$gte", Value.str t)])] = .ok true
          ↔ strLtChars s.data t.data = false))
    ∧ find (.seq [[("expiration_date", Value.str "2026-02-28")],
                  [("expiration_date", Value.str "2026-03-15")]])
        [("expiration_date", Value.dict [("$gte", Value.str "2026-03-01")])]
      = .ok [[("expiration_date", Value.str "2026-03-15")]] := by
  refine ⟨?_, ?_, ?_, rfl⟩
  · intro c hc
    rw [matches_singleton, matchClause_gte item f b hf]
    simp [hc]
  · intro c hc
    rw [matches_singleton, matchClause_lte item f b hf]
    simp [hc]
  · intro s t hs
    rw [matches_singleton, matchClause_gte item f (Value.str t) hf, hs]
    simp only [Value.lt]
    cases hlt : strLtChars s.data t.data <;> simp [hlt]

/-- Witness for C2 at a concrete input. -/
theorem c2_witness :
    _matches [("expiration_date", Value.str "2026-02-28")]
      [("expiration_date", Value.dict [("$gte", Value.str "2026-03-01")])] = .ok false := by
  have h := (c2_gte_lte_range_matching [("expiration_date", Value.str "2026-02-28")]
    "expiration_date" (Value.str "2026-03-01") rfl).1 true rfl
  exact h

/-- C3: a clause `{f: {$in: vs}}` matches a document whose value of `f` is a
list iff some member of `vs` occurs in that list, and otherwise matches iff
the document's value of `f` (absent treated as `None`) is a member of `vs`;
in particular the `participants` examples behave as stated. -/
theorem c3_in_operator_matching (item : Doc) (f : String) (vs : List Value)
    (hf : startsWithDollar f = false) :
    (∀ xs, getField item f = some (Value.list xs) →
        _matches item [(f, Value.dict [("$in", Value.list vs)])]
          = .ok (vs.any (fun w => xs.any (fun e => Value.eq e w))))
    ∧ ((∀ xs, getField item f ≠ some (Value.list xs)) →
        _matches item [(f, Value.dict [("$in", Value.list vs)])]
          = .ok (vs.any (fun e => Value.eq e ((getField item f).getD Value.none))))
    ∧ _matches [("participants", Value.list [Value.str "a@x.edu", Value.str "b@x.edu"])]
        [("participants", Value.dict [("$in", Value.list [Value.str "b@x.edu"])])] = .ok true
    ∧ _matches [("participants", Value.list [Value.str "a@x.edu", Value.str "b@x.edu"])]
        [("participants", Value.dict [("$in", Value.list [Value.str "c@x.edu"])])] = .ok false := by
  refine ⟨?_, ?_, rfl, rfl⟩
  · intro xs hxs
    rw [matches_singleton, matchClause_in_list_field item f (Value.list vs) xs hf hxs]
    simp [pyIter, Except.map]
  · intro hsc
    rw [matches_singleton, matchClause_in_scalar_field item f (Value.list vs) hf hsc]
    simp [pyContains]

/-- Witness for C3 at a concrete input. -/
theorem c3_witness :
    _matches [("participants", Value.list [Value.str "a@x.edu"])]
      [("participants", Value.dict [("$in", Value.list [Value.str "a@x.edu"])])]
      = .ok true := by
  have h := (c3_in_operator_matching [("participants", Value.list [Value.str "a@x.edu"])]
    "participants" [Value.str "a@x.edu"] rfl).1 [Value.str "a@x.edu"] rfl
  exact h

/-- C4 counterexample: the claim fails as stated.  First input: `update_one`
locates the empty document (`find_one` returns it), yet because of the
truthiness guard `if item:` the `$set` is silently skipped and no field is
created.  Second input: when the query constrains the very field being set,
`find_one(query)` after the update finds nothing, so it does not yield a
document whose field `k` equals `"v"`. -/
theorem c4_counterexample :
    (find_one (.seq [[]]) [] = .ok (some [])
      ∧ update_one (.seq [[]]) [] [("$set", Value.dict [("k", Value.str "v")])]
        = .ok (.seq [[]])
      ∧ getField [] "k" = Option.none)
    ∧ (update_one (.seq [[("k", Value.str "a")]]) [("k", Value.str "a")]
          [("$set", Value.dict [("k", Value.str "v")])]
        = .ok (.seq [[("k", Value.str "v")]])
      ∧ find_one (.seq [[("k", Value.str "v")]]) [("k", Value.str "a")]
        = .ok Option.none) :=
  ⟨⟨rfl, rfl, rfl⟩, rfl, rfl⟩

/-- C4 (amended): when `update_one(query, {$set: m})` locates a *non-empty*
document, every field named in `m` is overwritten or created with its new
value and every other field is unchanged; moreover, provided no field named
in `m` occurs in the query, `find_one(query)` afterwards returns the updated
document (so each set field `k` reads back its new value). -/
theorem c4_update_set_frame (s : Store) (q : Query) (m : List (String × Value)) (i : Nat)
    (hidx : findOneIdx s q = .ok (some i))
    (hne : (docAt s i).isEmpty = false)
    (hnd : (m.map Prod.fst).Nodup) :
    update_one s q [("$set", Value.dict m)] = .ok (setDocAt s i (applySet (docAt s i) m))
    ∧ (∀ k v, (k, v) ∈ m → getField (applySet (docAt s i) m) k = some v)
    ∧ (∀ k, k ∉ m.map Prod.fst →
        getField (applySet (docAt s i) m) k = getField (docAt s i) k)
    ∧ ((∀ k, k ∈ q.map Prod.fst → k ∉ m.map Prod.fst) →
        find_one (setDocAt s i (applySet (docAt s i) m)) q
          = .ok (some (applySet (docAt s i) m))) := by
  have hi : i < (docsOf s).length := findOneIdx_some_lt s q i hidx
  refine ⟨update_one_set_run s q m i hidx hne,
    fun k v hm => getField_applySet_mem m (docAt s i) k v hnd hm,
    fun k hk => getField_applySet_not_mem m (docAt s i) k hk, ?_⟩
  intro hdisj
  have hagree : ∀ kv ∈ q,
      getField (applySet (docAt s i) m) kv.1 = getField (docAt s i) kv.1 := by
    intro kv hm
    exact getField_applySet_not_mem m (docAt s i) kv.1
      (hdisj kv.1 (List.mem_map_of_mem Prod.fst hm))
  have hidx2 := findOneIdx_set_stable s q i (applySet (docAt s i) m) hidx hagree
  simp only [find_one, hidx2, Option.map_some',
    docAt_setDocAt_self s i (applySet (docAt s i) m) hi]

/-- Witness for the amended C4 at a concrete input. -/
theorem c4_witness :
    update_one (.seq [[("a", Value.int 1)]]) [("a", Value.int 1)]
        [("$set", Value.dict [("k", Value.str "v")])]
      = .ok (.seq [[("a", Value.int 1), ("k", Value.str "v")]])
    ∧ find_one (.seq [[("a", Value.int 1), ("k", Value.str "v")]]) [("a", Value.int 1)]
      = .ok (some [("a", Value.int 1), ("k", Value.str "v")]) := by
  have h := c4_update_set_frame (.seq [[("a", Value.int 1)]]) [("a", Value.int 1)]
    [("k", Value.str "v")] 0 rfl rfl (by simp)
  refine ⟨h.1, ?_⟩
  have h2 := h.2.2.2 (by intro k hk; simp at hk; subst hk; simp)
  exact h2

/-- C5 counterexample: the claim fails as stated.  First input: `update_one`
locates the empty document but the truthiness guard `if item:` skips the
`$push`, so no single-element list is created.  Second input: when the query
compares the pushed field with `$gte`, the second `update_one` raises
`TypeError` (list compared to string) instead of yielding `[x, x2]`. -/
theorem c5_counterexample :
    (find_one (.seq [[]]) [] = .ok (some [])
      ∧ update_one (.seq [[]]) [] [("$push", Value.dict [("k", Value.str "x")])]
        = .ok (.seq [[]])
      ∧ getField [] "k" = Option.none)
    ∧ (update_one (.seq [[("j", Value.int 1)]]) [("k2", Value.dict [("$gte", Value.str "")])]
          [("$push", Value.dict [("k2", Value.str "x")])]
        = .ok (.seq [[("j", Value.int 1), ("k2", Value.list [Value.str "x"])]])
      ∧ update_one (.seq [[("j", Value.int 1), ("k2", Value.list [Value.str "x"])]])
          [("k2", Value.dict [("$gte", Value.str "")])]
          [("$push", Value.dict [("k2", Value.str "x2")])] = .error .typeError) :=
  ⟨⟨rfl, rfl, rfl⟩, rfl, rfl⟩

/-- C5 (amended): when `update_one` locates a *non-empty* document, `$set` is
applied before `$push` (pushing onto a just-set list appends to it), a `$push`
to an absent field creates the single-element list `[x]`, and — provided the
query constrains no pushed field — a second `update_one` pushing `x2` appends,
yielding `[x, x2]` in call order. -/
theorem c5_update_push (s : Store) (q : Query) (k : String) (x x2 : Value)
    (xs : List Value) (i : Nat)
    (hidx : findOneIdx s q = .ok (some i))
    (hne : (docAt s i).isEmpty = false) :
    (update_one s q [("$set", Value.dict [(k, Value.list xs)]), ("$push", Value.dict [(k, x)])]
        = .ok (setDocAt s i
            (setField (setField (docAt s i) k (Value.list xs)) k (Value.list (xs ++ [x]))))
      ∧ getField (setField (setField (docAt s i) k (Value.list xs)) k
            (Value.list (xs ++ [x]))) k = some (Value.list (xs ++ [x])))
    ∧ (getField (docAt s i) k = Option.none →
        update_one s q [("$push", Value.dict [(k, x)])]
          = .ok (setDocAt s i (setField (docAt s i) k (Value.list [x])))
        ∧ getField (setField (docAt s i) k (Value.list [x])) k = some (Value.list [x])
        ∧ ((∀ k2, k2 ∈ q.map Prod.fst → k2 ≠ k) →
            update_one (setDocAt s i (setField (docAt s i) k (Value.list [x]))) q
              [("$push", Value.dict [(k, x2)])]
              = .ok (setDocAt (setDocAt s i (setField (docAt s i) k (Value.list [x]))) i
                  (setField (setField (docAt s i) k (Value.list [x])) k
                    (Value.list [x, x2])))
            ∧ getField (setField (setField (docAt s i) k (Value.list [x])) k
                  (Value.list [x, x2])) k = some (Value.list [x, x2]))) := by
  have hi : i < (docsOf s).length := findOneIdx_some_lt s q i hidx
  constructor
  · constructor
    · refine update_one_set_push_run s q [(k, Value.list xs)] [(k, x)] i _ hidx hne ?_
      have hset : applySet (docAt s i) [(k, Value.list xs)]
          = setField (docAt s i) k (Value.list xs) := rfl
      rw [hset]
      exact applyPush_single_list _ k x xs (getField_setField_self _ _ _)
    · exact getField_setField_self _ _ _
  · intro habs
    refine ⟨?_, getField_setField_self _ _ _, ?_⟩
    · exact update_one_push_run s q [(k, x)] i _ hidx hne
        (applyPush_single_absent (docAt s i) k x habs)
    · intro hdisj
      have hagree : ∀ kv ∈ q, getField (setField (docAt s i) k (Value.list [x])) kv.1
          = getField (docAt s i) kv.1 := by
        intro kv hm
        exact getField_setField_ne _ _ _ _ (hdisj kv.1 (List.mem_map_of_mem Prod.fst hm))
      have hidx2 := findOneIdx_set_stable s q i (setField (docAt s i) k (Value.list [x]))
        hidx hagree
      have hd : docAt (setDocAt s i (setField (docAt s i) k (Value.list [x]))) i
          = setField (docAt s i) k (Value.list [x]) :=
        docAt_setDocAt_self s i _ hi
      have hne2 : (docAt (setDocAt s i (setField (docAt s i) k (Value.list [x]))) i).isEmpty
          = false := by rw [hd]; exact setField_ne_nil _ _ _
      have hpush2 : applyPush
          (docAt (setDocAt s i (setField (docAt s i) k (Value.list [x]))) i) [(k, x2)]
          = .ok (setField (setField (docAt s i) k (Value.list [x])) k (Value.list [x, x2])) := by
        rw [hd]
        exact applyPush_single_list _ k x2 [x] (getField_setField_self _ _ _)
      refine ⟨?_, getField_setField_self _ _ _⟩
      exact update_one_push_run _ q [(k, x2)] i _ hidx2 hne2 hpush2

/-- Witness for the amended C5 at a concrete input. -/
theorem c5_witness :
    update_one (.seq [[("a", Value.int 1)]]) [("a", Value.int 1)]
        [("$push", Value.dict [("lst", Value.str "x1")])]
      = .ok (.seq [[("a", Value.int 1), ("lst", Value.list [Value.str "x1"])]])
    ∧ update_one (.seq [[("a", Value.int 1), ("lst", Value.list [Value.str "x1"])]])
        [("a", Value.int 1)] [("$push", Value.dict [("lst", Value.str "x2")])]
      = .ok (.seq [[("a", Value.int 1),
          ("lst", Value.list [Value.str "x1", Value.str "x2"])]]) := by
  have h := (c5_update_push (.seq [[("a", Value.int 1)]]) [("a", Value.int 1)] "lst"
    (Value.str "x1") (Value.str "x2") [Value.str "p"] 0 rfl rfl).2 rfl
  exact ⟨h.1, (h.2.2 (by intro k2 hk2; simp at hk2; subst hk2; simp)).1⟩

/-- C6 counterexample: a keyed store holding `{_id:"A", x:1}` under key `"A"`
satisfies no document for the query `{_id:"A", x:2}` (`find` returns `[]`),
yet `update_one` with that query locates the document through the direct
`_id` lookup and mutates it, so it is not a no-op. -/
theorem c6_counterexample :
    find (.keyed [(Value.str "A", [("_id", Value.str "A"), ("x", Value.int 1)])])
        [("_id", Value.str "A"), ("x", Value.int 2)] = .ok []
    ∧ update_one (.keyed [(Value.str "A", [("_id", Value.str "A"), ("x", Value.int 1)])])
        [("_id", Value.str "A"), ("x", Value.int 2)]
        [("$set", Value.dict [("y", Value.int 5)])]
      = .ok (.keyed [(Value.str "A",
          [("_id", Value.str "A"), ("x", Value.int 1), ("y", Value.int 5)])])
    ∧ ([("_id", Value.str "A"), ("x", Value.int 1), ("y", Value.int 5)] : Doc)
        ≠ [("_id", Value.str "A"), ("x", Value.int 1)] :=
  ⟨rfl, rfl, by simp⟩

/-- C6 (amended): for every query for which `find_one`'s resolution locates no
document, `update_one` performs no action — it signals no error and returns
the collection unchanged; in particular this holds for every query without an
`_id` clause that no document of the collection satisfies. -/
theorem c6_update_one_unlocated_noop (s : Store) (q : Query) (u : Update) :
    (find_one s q = .ok Option.none → update_one s q u = .ok s)
    ∧ (getField q "_id" = Option.none → (∀ d ∈ docsOf s, _matches d q = .ok false) →
        update_one s q u = .ok s) := by
  constructor
  · intro h
    cases hf : findOneIdx s q with
    | error e =>
      simp only [find_one, hf] at h
      exact Except.noConfusion h
    | ok oi =>
      cases oi with
      | none => exact update_one_located_noop s q u hf
      | some i =>
        simp only [find_one, hf, Option.map_some'] at h
        exact Option.noConfusion (Except.ok.inj h)
  · intro hq hall
    have h2 : findOneIdx s q = .ok Option.none := by
      unfold findOneIdx
      simp only [hq]
      exact scanIdx_none_of_all_false q (docsOf s) hall
    exact update_one_located_noop s q u h2

/-- Witness for the amended C6 at a concrete input. -/
theorem c6_witness :
    update_one (.seq [[("z", Value.int 9)]]) [("w", Value.int 1)]
        [("$set", Value.dict [("k", Value.str "v")])] = .ok (.seq [[("z", Value.int 9)]])
    ∧ update_one (.seq [[("z", Value.int 9)]]) [("z", Value.int 8)]
        [("$set", Value.dict [("k", Value.str "v")])] = .ok (.seq [[("z", Value.int 9)]]) := by
  refine ⟨(c6_update_one_unlocated_noop (.seq [[("z", Value.int 9)]])
      [("w", Value.int 1)] [("$set", Value.dict [("k", Value.str "v")])]).1 rfl,
    (c6_update_one_unlocated_noop (.seq [[("z", Value.int 9)]])
      [("z", Value.int 8)] [("$set", Value.dict [("k", Value.str "v")])]).2 rfl ?_⟩
  intro d hd
  simp [docsOf] at hd
  subst hd
  rfl

/-- C7: for every collection state and query, `count_documents(q)` equals the
length of the sequence returned by `find(q)` (including agreement on the
error case, since `count_documents` is `len(find(query))`). -/
theorem c7_count_documents_is_length_of_find (s : Store) (q : Query) :
    count_documents s q = (find s q).map List.length
    ∧ ∀ n, count_documents s q = .ok n ↔ ∃ l, find s q = .ok l ∧ l.length = n := by
  refine ⟨rfl, fun n => ?_⟩
  cases hf : find s q with
  | error e => simp [count_documents, hf, Except.map]
  | ok l => simp [count_documents, hf, Except.map]

/-- Witness for C7 at a concrete input. -/
theorem c7_witness :
    count_documents (.seq [[("a", Value.int 1)]]) [] = .ok 1 := by
  have h := (c7_count_documents_is_length_of_find (.seq [[("a", Value.int 1)]]) []).2 1
  exact h.mpr ⟨[[("a", Value.int 1)]], rfl, rfl⟩

/-- C8: a document satisfies a query iff it satisfies every top-level field
clause; a clause whose field name begins with `$` imposes no constraint, a
clause whose operator document has none of `$in`/`$gte`/`$lte` imposes no
constraint, and an empty query matches every document (`find` with the empty
query returns the whole collection). -/
theorem c8_conjunctive_query_semantics (item : Doc) (q : Query) (key : String) (v : Value)
    (opd : List (String × Value)) (s : Store) :
    (_matches item q = .ok true ↔ ∀ kv ∈ q, matchClause item kv.1 kv.2 = .ok true)
    ∧ (startsWithDollar key = true → matchClause item key v = .ok true)
    ∧ (startsWithDollar key = false → getField opd "$in" = Option.none →
        getField opd "$gte" = Option.none → getField opd "$lte" = Option.none →
        matchClause item key (Value.dict opd) = .ok true)
    ∧ _matches item [] = .ok true
    ∧ find s [] = .ok (docsOf s) := by
  refine ⟨?_, ?_, ?_, rfl, findList_nil_query (docsOf s)⟩
  · by_cases hq : q.isEmpty
    · have hnil : q = [] := List.isEmpty_iff.mp hq
      subst hnil
      simp [InMemoryCollection._matches, matchesClauses]
    · rw [show _matches item q = matchesClauses item q by
        simp [InMemoryCollection._matches, hq]]
      exact matchesClauses_ok_true_iff item q
  · intro hk
    simp [matchClause, hk]
  · intro hk h1 h2 h3
    simp [matchClause, hk, h1, h2, h3]

/-- Witness for C8 at concrete inputs. -/
theorem c8_witness :
    matchClause [] "$or" (Value.int 1) = .ok true
    ∧ matchClause [] "f" (Value.dict [("$unknown", Value.int 1)]) = .ok true := by
  have h1 := (c8_conjunctive_query_semantics [] [] "$or" (Value.int 1)
    [("$unknown", Value.int 1)] (.seq [])).2.1 rfl
  have h2 := (c8_conjunctive_query_semantics [] [] "f" (Value.int 1)
    [("$unknown", Value.int 1)] (.seq [])).2.2.1 rfl rfl rfl rfl
  exact ⟨h1, h2⟩

/-- C10: when a query field's operator document holds more than one recognized
operator, only the first in the fixed order `$in`, `$gte`, `$lte` constrains
the match; in particular `{f: {$gte: a, $lte: b}}` behaves exactly like
`{f: {$gte: a}}` — the document matches iff its value of `f` (defaulting to
`""`) is not less than `a`, irrespective of `b`. -/
theorem c10_first_operator_wins (item : Doc) (f : String) (a b inv : Value)
    (opd : List (String × Value)) (hf : startsWithDollar f = false) :
    (getField opd "$in" = some inv →
        matchClause item f (Value.dict opd) = matchClause item f (Value.dict [("$in", inv)]))
    ∧ (getField opd "$in" = Option.none → getField opd "$gte" = some a →
        matchClause item f (Value.dict opd) = matchClause item f (Value.dict [("$gte", a)]))
    ∧ _matches item [(f, Value.dict [("$gte", a), ("$lte", b)])]
        = _matches item [(f, Value.dict [("$gte", a)])]
    ∧ (∀ c, Value.lt ((getField item f).getD (Value.str "")) a = some c →
        _matches item [(f, Value.dict [("$gte", a), ("$lte", b)])] = .ok (!c)) := by
  have h1 : getField [("$in", inv)] "$in" = some inv := rfl
  have h2 : getField [("$gte", a)] "$in" = Option.none := rfl
  have h3 : getField [("$gte", a)] "$gte" = some a := rfl
  have h4 : getField [("$gte", a), ("$lte", b)] "$in" = Option.none := rfl
  have h5 : getField [("$gte", a), ("$lte", b)] "$gte" = some a := rfl
  refine ⟨?_, ?_, ?_, ?_⟩
  · intro hin
    simp only [matchClause, hf, Bool.false_eq_true, if_false, hin, h1]
  · intro hin hgte
    simp only [matchClause, hf, Bool.false_eq_true, if_false, hin, hgte, h2, h3]
  · rw [matches_singleton, matches_singleton]
    simp only [matchClause, hf, Bool.false_eq_true, if_false, h2, h3, h4, h5]
  · intro c hc
    rw [matches_singleton]
    simp only [matchClause, hf, Bool.false_eq_true, if_false, h4, h5, hc]

/-- Witness for C10 at a concrete input. -/
theorem c10_witness :
    matchClause [("f", Value.str "b")] "f"
        (Value.dict [("$in", Value.list [Value.str "b"]), ("$gte", Value.str "z")])
      = matchClause [("f", Value.str "b")] "f"
        (Value.dict [("$in", Value.list [Value.str "b"])])
    ∧ _matches [("f", Value.str "b")]
        [("f", Value.dict [("$gte", Value.str "a"), ("$lte", Value.str "aa")])]
      = .ok true := by
  have h := c10_first_operator_wins [("f", Value.str "b")] "f" (Value.str "a")
    (Value.str "aa") (Value.list [Value.str "b"])
    [("$in", Value.list [Value.str "b"]), ("$gte", Value.str "z")] rfl
  exact ⟨h.1 rfl, h.2.2.2 false rfl⟩

/-! ## Totality lemmas -/

theorem findOneIdx_total (s : Store) (q : Query)
    (hmatch : ∀ d ∈ docsOf s, ∃ b, _matches d q = .ok b)
    (hid : ∀ qid, getField q "_id" = some qid → qid.hashable = true) :
    ∃ oi, findOneIdx s q = .ok oi := by
  unfold findOneIdx
  cases hq : getField q "_id" with
  | none =>
    simp only []
    exact scanIdx_total q (docsOf s) hmatch
  | some qid =>
    cases s with
    | keyed m =>
      refine ⟨keyedIdx m qid, ?_⟩
      simp [hid qid hq]
    | seq l =>
      cases hs : seqIdIdx l qid with
      | some j => exact ⟨some j, by simp [hs]⟩
      | none =>
        obtain ⟨r, hr⟩ := scanIdx_total q l (by simpa [docsOf] using hmatch)
        exact ⟨r, by simp [hs, hr]⟩

theorem update_one_empty_run (s : Store) (q : Query) (u : Update) (i : Nat)
    (hidx : findOneIdx s q = .ok (some i)) (he : (docAt s i).isEmpty = true) :
    update_one s q u = .ok s := by
  simp [update_one, hidx, he]

theorem insert_many_seq_total (docs : List Doc) :
    ∀ l, ∃ l2, insert_many (.seq l) docs = .ok (.seq l2) := by
  induction docs with
  | nil => intro l; exact ⟨l, rfl⟩
  | cons d rest ih =>
    intro l
    obtain ⟨l2, h⟩ := ih (l ++ [d])
    exact ⟨l2, by simp [insert_many, insert_one, h]⟩

/-- C9 counterexample: the store does raise.  `find` with `{x: {$gte: 5}}`
over a collection holding a document lacking `x` compares `"" < 5` and raises
`TypeError`, and a keyed `insert_one` of a document without `_id` raises
`KeyError`. -/
theorem c9_counterexample :
    find (.seq [[]]) [("x", Value.dict [("$gte", Value.int 5)])] = .error .typeError
    ∧ insert_one (.keyed []) [] = .error .keyError :=
  ⟨rfl, rfl⟩

/-- C9 (amended): the store's operations are total except on the designated
programmer-error inputs: every operation succeeds whenever the query's
operator comparisons are defined on the collection's documents (no
`TypeError` from `$gte`/`$lte`/`$in`), any `_id` probe against a keyed store
is hashable, inserted documents carry a hashable `_id` when the store is
keyed, and `$push` targets only absent or list-valued fields (after `$set`).
List-backed `insert_one`/`insert_many` are unconditionally total. -/
theorem c9_totality (s : Store) (q : Query) (d0 : Doc) :
    ((∀ d ∈ docsOf s, ∃ b, _matches d q = .ok b) →
        (∃ r, find s q = .ok r) ∧ ∃ n, count_documents s q = .ok n)
    ∧ ((∀ d ∈ docsOf s, ∃ b, _matches d q = .ok b) →
        (∀ qid, getField q "_id" = some qid → qid.hashable = true) →
        ∃ r, find_one s q = .ok r)
    ∧ (∀ l, ∃ res, insert_one (.seq l) d0 = .ok res)
    ∧ (∀ m v, getField d0 "_id" = some v → v.hashable = true →
        ∃ res, insert_one (.keyed m) d0 = .ok res)
    ∧ (∀ l docs, ∃ l2, insert_many (.seq l) docs = .ok (.seq l2))
    ∧ (∀ ms, (∀ d ∈ docsOf s, ∃ b, _matches d q = .ok b) →
        (∀ qid, getField q "_id" = some qid → qid.hashable = true) →
        ∃ s2, update_one s q [("$set", Value.dict ms)] = .ok s2)
    ∧ (∀ mp, (∀ d ∈ docsOf s, ∃ b, _matches d q = .ok b) →
        (∀ qid, getField q "_id" = some qid → qid.hashable = true) →
        (∀ i, findOneIdx s q = .ok (some i) → ∀ kx ∈ mp,
          getField (docAt s i) kx.1 = Option.none
            ∨ ∃ xs, getField (docAt s i) kx.1 = some (Value.list xs)) →
        ∃ s2, update_one s q [("$push", Value.dict mp)] = .ok s2)
    ∧ (∀ ms mp, (∀ d ∈ docsOf s, ∃ b, _matches d q = .ok b) →
        (∀ qid, getField q "_id" = some qid → qid.hashable = true) →
        (∀ i, findOneIdx s q = .ok (some i) → ∀ kx ∈ mp,
          getField (applySet (docAt s i) ms) kx.1 = Option.none
            ∨ ∃ xs, getField (applySet (docAt s i) ms) kx.1 = some (Value.list xs)) →
        ∃ s2, update_one s q [("$set", Value.dict ms), ("$push", Value.dict mp)]
          = .ok s2) := by
  refine ⟨?_, ?_, ?_, ?_, ?_, ?_, ?_, ?_⟩
  · intro hmatch
    obtain ⟨r, hr⟩ := findList_total q (docsOf s) hmatch
    exact ⟨⟨r, hr⟩, ⟨r.length, by simp [count_documents, find, hr, Except.map]⟩⟩
  · intro hmatch hid
    obtain ⟨oi, hoi⟩ := findOneIdx_total s q hmatch hid
    exact ⟨oi.map (docAt s), by simp [find_one, hoi]⟩
  · intro l
    exact ⟨(.seq (l ++ [d0]), (getField d0 "_id").getD Value.none), rfl⟩
  · intro m v h1 h2
    exact ⟨(.keyed (keyedSet m v d0), v), insert_one_keyed_run m d0 v h1 h2⟩
  · intro l docs
    exact insert_many_seq_total docs l
  · intro ms hmatch hid
    obtain ⟨oi, hoi⟩ := findOneIdx_total s q hmatch hid
    cases oi with
    | none => exact ⟨s, update_one_located_noop s q _ hoi⟩
    | some i =>
      cases he : (docAt s i).isEmpty with
      | true => exact ⟨s, update_one_empty_run s q _ i hoi he⟩
      | false =>
        exact ⟨setDocAt s i (applySet (docAt s i) ms), update_one_set_run s q ms i hoi he⟩
  · intro mp hmatch hid hp
    obtain ⟨oi, hoi⟩ := findOneIdx_total s q hmatch hid
    cases oi with
    | none => exact ⟨s, update_one_located_noop s q _ hoi⟩
    | some i =>
      cases he : (docAt s i).isEmpty with
      | true => exact ⟨s, update_one_empty_run s q _ i hoi he⟩
      | false =>
        obtain ⟨d2, hd2⟩ := applyPush_total mp (docAt s i) (hp i hoi)
        exact ⟨setDocAt s i d2, update_one_push_run s q mp i d2 hoi he hd2⟩
  · intro ms mp hmatch hid hp
    obtain ⟨oi, hoi⟩ := findOneIdx_total s q hmatch hid
    cases oi with
    | none => exact ⟨s, update_one_located_noop s q _ hoi⟩
    | some i =>
      cases he : (docAt s i).isEmpty with
      | true => exact ⟨s, update_one_empty_run s q _ i hoi he⟩
      | false =>
        obtain ⟨d2, hd2⟩ := applyPush_total mp (applySet (docAt s i) ms) (hp i hoi)
        exact ⟨setDocAt s i d2, update_one_set_push_run s q ms mp i d2 hoi he hd2⟩

/-- Witness for the amended C9 at concrete inputs. -/
theorem c9_witness :
    (∃ r, find (.seq [[("a", Value.int 1)]]) [("a", Value.int 1)] = .ok r)
    ∧ (∃ n, count_documents (.seq [[("a", Value.int 1)]]) [("a", Value.int 1)] = .ok n)
    ∧ (∃ r, find_one (.seq [[("a", Value.int 1)]]) [("a", Value.int 1)] = .ok r)
    ∧ (∃ res, insert_one (.seq []) [("_id", Value.str "B")] = .ok res)
    ∧ (∃ res, insert_one (.keyed []) [("_id", Value.str "B")] = .ok res)
    ∧ (∃ l2, insert_many (.seq []) [[("_id", Value.str "B")]] = .ok (.seq l2))
    ∧ (∃ s2, update_one (.seq [[("a", Value.int 1)]]) [("a", Value.int 1)]
        [("$set", Value.dict [("k0", Value.str "v")])] = .ok s2)
    ∧ (∃ s2, update_one (.seq [[("a", Value.int 1)]]) [("a", Value.int 1)]
        [("$push", Value.dict [("lst", Value.str "x")])] = .ok s2)
    ∧ (∃ s2, update_one (.seq [[("a", Value.int 1)]]) [("a", Value.int 1)]
        [("$set", Value.dict [("k0", Value.str "v")]),
         ("$push", Value.dict [("lst", Value.str "x")])] = .ok s2) := by
  have h := c9_totality (.seq [[("a", Value.int 1)]]) [("a", Value.int 1)]
    [("_id", Value.str "B")]
  have hmatch : ∀ d ∈ docsOf (.seq [[("a", Value.int 1)]]),
      ∃ b, _matches d [("a", Value.int 1)] = .ok b := by
    intro d hd
    simp [docsOf] at hd
    subst hd
    exact ⟨true, rfl⟩
  have hid : ∀ qid, getField ([("a", Value.int 1)] : Query) "_id" = some qid →
      qid.hashable = true := by
    intro qid hqid
    exact Option.noConfusion (show (Option.none : Option Value) = some qid from hqid)
  have hp1 : ∀ i, findOneIdx (.seq [[("a", Value.int 1)]]) [("a", Value.int 1)]
      = .ok (some i) → ∀ kx ∈ ([("lst", Value.str "x")] : List (String × Value)),
      getField (docAt (.seq [[("a", Value.int 1)]]) i) kx.1 = Option.none
        ∨ ∃ xs, getField (docAt (.seq [[("a", Value.int 1)]]) i) kx.1
            = some (Value.list xs) := by
    intro i hi kx hkx
    have h1 : (Except.ok (some 0) : Except PyErr (Option Nat)) = .ok (some i) := hi
    have h2 : (0 : Nat) = i := Option.some.inj (Except.ok.inj h1)
    subst h2
    simp at hkx
    subst hkx
    exact Or.inl rfl
  have hp2 : ∀ i, findOneIdx (.seq [[("a", Value.int 1)]]) [("a", Value.int 1)]
      = .ok (some i) → ∀ kx ∈ ([("lst", Value.str "x")] : List (String × Value)),
      getField (applySet (docAt (.seq [[("a", Value.int 1)]]) i)
          [("k0", Value.str "v")]) kx.1 = Option.none
        ∨ ∃ xs, getField (applySet (docAt (.seq [[("a", Value.int 1)]]) i)
            [("k0", Value.str "v")]) kx.1 = some (Value.list xs) := by
    intro i hi kx hkx
    have h1 : (Except.ok (some 0) : Except PyErr (Option Nat)) = .ok (some i) := hi
    have h2 : (0 : Nat) = i := Option.some.inj (Except.ok.inj h1)
    subst h2
    simp at hkx
    subst hkx
    exact Or.inl rfl
  exact ⟨(h.1 hmatch).1, (h.1 hmatch).2, h.2.1 hmatch hid, h.2.2.1 [],
    h.2.2.2.1 [] (Value.str "B") rfl rfl, h.2.2.2.2.1 [] [[("_id", Value.str "B")]],
    h.2.2.2.2.2.1 [("k0", Value.str "v")] hmatch hid,
    h.2.2.2.2.2.2.1 [("lst", Value.str "x")] hmatch hid hp1,
    h.2.2.2.2.2.2.2 [("k0", Value.str "v")] [("lst", Value.str "x")] hmatch hid hp2⟩
